import Mathlib

/-!
Verification of the VOD stream resolution and clip extraction pipeline.

The definitions below are shallow embeddings of the TypeScript/JavaScript
sources of the repository:
  * `railway-server.js` (v2 section): `parseTimeToSeconds`, the `/clip`
    handler's vodUrl validation, range/duration validation, ftyp check and
    temp-file cleanup;
  * `supabase/functions/process-clip/index.ts`: input-routing branches and
    temp-file cleanup around the local ffmpeg invocation;
  * `supabase/functions/get-vod-stream/index.ts`: playback-token field
    validation and master-playlist variant selection;
  * `supabase/functions/rewrite-m3u8/index.ts`: line-by-line manifest
    rewriting.

Strings are modelled as `List Char` (the sources only manipulate code
points that are unaffected by UTF-16 encoding details).  JavaScript
numbers are modelled by `JSNum`: NaN, the two infinities, and finite
values represented as rationals.  Arithmetic overflows to the infinities
at the IEEE-754 double overflow threshold (`dblOverflow`), as in the
runtime; below the threshold results are kept exact — the 53-bit
rounding of doubles is not modelled, so every universal statement about
finite arithmetic below carries magnitude bounds confining it to ranges
in which double arithmetic is exact, and every concrete input evaluated
lies in such a range.
-/

set_option maxRecDepth 8192

/-- Convert a string literal to the `List Char` representation used by the
model. -/
def strL (s : String) : List Char := s.toList

/-- Whitespace predicate used by the model of the JavaScript string `trim`
(ASCII subset: space, tab, carriage return, line feed; the sources never
produce other whitespace code points around manifest lines or time
strings). -/
def isWs (c : Char) : Bool := c = ' ' || c = '\t' || c = '\r' || c = '\n'

/-- `startsWithL l p` models the JavaScript `l.startsWith(p)`. -/
def startsWithL : List Char → List Char → Bool
  | _, [] => true
  | [], _ :: _ => false
  | c :: cs, p :: ps => c = p && startsWithL cs ps

/-- `containsSub l p` models the JavaScript `l.includes(p)`. -/
def containsSub : List Char → List Char → Bool
  | l, p =>
    startsWithL l p ||
      match l with
      | [] => false
      | _ :: cs => containsSub cs p

/-- `splitOnCh sep l` models the JavaScript `l.split(sep)` for a one
character separator. -/
def splitOnCh (sep : Char) : List Char → List (List Char)
  | [] => [[]]
  | c :: cs =>
    match splitOnCh sep cs with
    | [] => [[]]
    | l :: ls => if c = sep then [] :: l :: ls else (c :: l) :: ls

/-- `joinCh sep ls` models the JavaScript `ls.join(sep)` for a one
character separator. -/
def joinCh (sep : Char) : List (List Char) → List Char
  | [] => []
  | [l] => l
  | l :: l₂ :: ls => l ++ sep :: joinCh sep (l₂ :: ls)

/-- `trimList l` models the JavaScript `l.trim()`. -/
def trimList (l : List Char) : List Char :=
  ((l.dropWhile isWs).reverse.dropWhile isWs).reverse

/-- `baseOf uri` models `uri.substring(0, uri.lastIndexOf("/") + 1)` from
`rewrite-m3u8/index.ts`: the locator truncated just after its final slash
(empty when there is no slash). -/
def baseOf : List Char → List Char
  | [] => []
  | c :: cs =>
    if '/' ∈ cs then c :: baseOf cs
    else if c = '/' then ['/'] else []

/-! ### Clip extraction responses (railway-server.js v2 and process-clip) -/

/-- Outcome of the ffmpeg step, abstracting the engine run: either the
bytes read back from the output file, or a failure (non-zero exit /
rejected promise). -/
inductive FfmpegRun where
  | ok (out : List Nat)
  | failed
  deriving DecidableEq

/-- MP4 `ftyp` test of `railway-server.js` (v2): the bytes at offsets
4..7 or 8..11 spell `ftyp` (0x66 0x74 0x79 0x70).  Reading past the end of
the buffer gives `none`, matching the `undefined` JavaScript reads which
compare unequal to every byte value. -/
def isFtyp (buf : List Nat) : Bool :=
  (buf.get? 4 = some 0x66 && buf.get? 5 = some 0x74 &&
   buf.get? 6 = some 0x79 && buf.get? 7 = some 0x70) ||
  (buf.get? 8 = some 0x66 && buf.get? 9 = some 0x74 &&
   buf.get? 10 = some 0x79 && buf.get? 11 = some 0x70)

/-- Response of the railway `/clip` handler (v2) after the ffmpeg step:
either the clip bytes together with the flag telling whether the
non-MP4-header warning was logged, or the 500 error response. -/
inductive RWResponse where
  | clip (bytes : List Nat) (warnedNotMp4 : Bool)
  | serverError
  deriving DecidableEq

/-- Tail of the railway `/clip` handler (v2, `railway-server.js` lines
386-435) from the point where the ffmpeg promise settles: on failure the
catch block removes the output temp file and answers 500; on success the
output file is read back, an empty buffer is thrown (caught by the same
catch block, which removes the temp file), a non-`ftyp` header is only
logged as a warning, and the buffer is sent.  The second component lists
the files whose removal is attempted on that path. -/
def railwayFinish (outputPath : String) : FfmpegRun → RWResponse × List String
  | .failed => (.serverError, [outputPath])
  | .ok out =>
    if out.length = 0 then (.serverError, [outputPath])
    else (.clip out (!isFtyp out), [outputPath])

/-- Response of the `process-clip` edge function after the ffmpeg step. -/
inductive PCResponse where
  | clipBytes (b : List Nat)
  | ffmpegError
  | emptyOutput
  deriving DecidableEq

/-- Tail of the `process-clip` handler (`index.ts` lines 229-288) for the
local-process strategy, from the point where the native ffmpeg invocation
settles: on failure both temp files are removed and a 500 is returned; on
success only the input temp file is removed, then an empty output buffer
yields the `empty_output` 500 and otherwise the bytes are returned.  The
second component lists the files whose removal is attempted. -/
def processClipLocalFinish (inputTmp outputTmp : String) :
    FfmpegRun → PCResponse × List String
  | .failed => (.ffmpegError, [inputTmp, outputTmp])
  | .ok out =>
    if out.length = 0 then (.emptyOutput, [inputTmp])
    else (.clipBytes out, [inputTmp])

/-! ### Source-locator validation -/

/-- The railway `/clip` handler's vodUrl validation (v2, lines 263-270):
the locator must start with `http://` or `https://`, otherwise the
request is rejected with a 400 before any fetch or ffmpeg run. -/
def railwayValidVodUrl (vodUrl : List Char) : Bool :=
  startsWithL vodUrl (strL ("http://")) || startsWithL vodUrl (strL ("https://"))

/-- Input routing of the `process-clip` handler (lines 144-225): locators
under `/mnt/data` are read from the local disk (Case A), other
`/`-prefixed locators are resolved against the request URL and fetched
(Case B), anything else is fetched as a remote URL (Case C).  There is no
rejection branch; every route continues to the extraction step. -/
inductive PCInputRoute where
  | localDisk
  | relativeAsset
  | remoteFetch
  deriving DecidableEq

/-- The branch taken by `process-clip` for a given vodUrl string. -/
def processClipRoute (vodUrl : List Char) : PCInputRoute :=
  if startsWithL vodUrl (strL ("/mnt/data")) then .localDisk
  else if startsWithL vodUrl (strL ("/")) then .relativeAsset
  else .remoteFetch

/-! ### JavaScript numbers -/

/-- Model of a JavaScript number: NaN, the infinities, or a finite value
represented as a rational (see the header comment for the modelled
fragment of double arithmetic). -/
inductive JSNum where
  | nan
  | posInf
  | negInf
  | fin (q : ℚ)
  deriving DecidableEq

namespace JSNum

/-- `Number.isFinite`. -/
def isFinite : JSNum → Bool
  | .fin _ => true
  | _ => false

/-- `Number.isNaN`. -/
def isNaN : JSNum → Bool
  | .nan => true
  | _ => false

end JSNum

/-- The smallest magnitude at which an exactly-computed arithmetic
result overflows IEEE-754 double precision to an infinity
(`2^1024 - 2^970`): the largest finite double is `2^1024 - 2^971`, and
an exact result of magnitude at least this threshold rounds to an
infinity. -/
def dblOverflow : ℚ := ((2 ^ 1024 - 2 ^ 970 : ℕ) : ℚ)

/-- Pack the exact value of an arithmetic operation into a JavaScript
number: results at or beyond the overflow threshold become the
infinities, exactly as in double arithmetic; smaller results are kept as
exact rationals (sub-threshold 53-bit rounding is not modelled; see the
header comment). -/
def jsOfRat (q : ℚ) : JSNum :=
  if dblOverflow ≤ q then .posInf
  else if q ≤ -dblOverflow then .negInf
  else .fin q

/-- JavaScript addition (overflowing at the double threshold). -/
def jsAdd : JSNum → JSNum → JSNum
  | .nan, _ => .nan
  | _, .nan => .nan
  | .posInf, .negInf => .nan
  | .negInf, .posInf => .nan
  | .posInf, _ => .posInf
  | _, .posInf => .posInf
  | .negInf, _ => .negInf
  | _, .negInf => .negInf
  | .fin a, .fin b => jsOfRat (a + b)

/-- JavaScript negation. -/
def jsNeg : JSNum → JSNum
  | .nan => .nan
  | .posInf => .negInf
  | .negInf => .posInf
  | .fin a => .fin (-a)

/-- JavaScript subtraction. -/
def jsSub (a b : JSNum) : JSNum := jsAdd a (jsNeg b)

/-- JavaScript multiplication (overflowing at the double threshold). -/
def jsMul : JSNum → JSNum → JSNum
  | .nan, _ => .nan
  | _, .nan => .nan
  | .posInf, .posInf => .posInf
  | .posInf, .negInf => .negInf
  | .negInf, .posInf => .negInf
  | .negInf, .negInf => .posInf
  | .posInf, .fin b => if 0 < b then .posInf else if b < 0 then .negInf else .nan
  | .fin a, .posInf => if 0 < a then .posInf else if a < 0 then .negInf else .nan
  | .negInf, .fin b => if 0 < b then .negInf else if b < 0 then .posInf else .nan
  | .fin a, .negInf => if 0 < a then .negInf else if a < 0 then .posInf else .nan
  | .fin a, .fin b => jsOfRat (a * b)

/-- JavaScript `<=` (false whenever either side is NaN). -/
def jsLe : JSNum → JSNum → Bool
  | .nan, _ => false
  | _, .nan => false
  | .negInf, _ => true
  | _, .posInf => true
  | .posInf, _ => false
  | .fin _, .negInf => false
  | .fin a, .fin b => a ≤ b

/-- JavaScript `<` (false whenever either side is NaN). -/
def jsLt : JSNum → JSNum → Bool
  | .nan, _ => false
  | _, .nan => false
  | .posInf, _ => false
  | _, .posInf => true
  | .negInf, .negInf => false
  | .negInf, _ => true
  | .fin _, .negInf => false
  | .fin a, .fin b => a < b

/-- JavaScript `Math.max` of two arguments (NaN-propagating). -/
def jsMax (a b : JSNum) : JSNum :=
  if a.isNaN || b.isNaN then .nan
  else if jsLe a b then b else a

/-- JavaScript `Math.floor` (restricted to the values the sources feed
it: identity on NaN and the infinities, floor on finite values). -/
def jsFloor : JSNum → JSNum
  | .nan => .nan
  | .posInf => .posInf
  | .negInf => .negInf
  | .fin q => .fin (⌊q⌋ : ℚ)

/-- Decimal-digit predicate. -/
def isDigit (c : Char) : Bool := '0' ≤ c && c ≤ '9'

/-- Numeric value of a decimal digit character. -/
def digVal (c : Char) : ℕ := c.toNat - ('0').toNat

/-- Value of a list of decimal digits read left to right. -/
def natOfDigits (l : List Char) : ℕ :=
  l.foldl (fun a c => a * 10 + digVal c) 0

/-- Parse an unsigned decimal literal, as accepted by the JavaScript
`Number` conversion: digits, optionally followed by a point and further
digits, with at least one digit in total.  `none` marks a string `Number`
maps to NaN. -/
def parseUnsigned (l : List Char) : Option ℚ :=
  let intPart := l.takeWhile isDigit
  let rest := l.dropWhile isDigit
  match rest with
  | [] => if intPart = [] then none else some ((natOfDigits intPart : ℚ))
  | '.' :: frac =>
    if frac.all isDigit && (intPart ≠ [] || frac ≠ []) then
      some ((natOfDigits intPart : ℚ) + (natOfDigits frac : ℚ) / (10 ^ frac.length))
    else none
  | _ => none

/-- Wrap a parsed magnitude, NaN on parse failure. -/
def finOrNan : Option ℚ → JSNum
  | some q => .fin q
  | none => .nan

/-- Wrap a parsed magnitude negated, NaN on parse failure. -/
def negOrNan : Option ℚ → JSNum
  | some q => .fin (-q)
  | none => .nan

/-- Body of the JavaScript `Number(string)` conversion on an already
trimmed string (see `jsNumOfString`): empty to 0, signed `Infinity`, then
an optional sign followed by an unsigned decimal literal. -/
def jsNumOfTrimmed (t : List Char) : JSNum :=
  if t = [] then .fin 0
  else if t = strL ("Infinity") || t = strL ("+Infinity") then .posInf
  else if t = strL ("-Infinity") then .negInf
  else if startsWithL t (strL ("+")) then finOrNan (parseUnsigned (t.drop 1))
  else if startsWithL t (strL ("-")) then negOrNan (parseUnsigned (t.drop 1))
  else finOrNan (parseUnsigned t)

/-- Model of the JavaScript `Number(string)` conversion on the fragment
exercised by the sources: trimmed input, empty string to `0`, signed
`Infinity`, signed decimal literals; everything else (including the
colon-bearing strings the fallback path receives) is NaN.  Exponent and
radix-prefixed literals are outside the modelled fragment. -/
def jsNumOfString (l : List Char) : JSNum :=
  jsNumOfTrimmed (trimList l)

/-- A value of the dynamically-typed `startTime`/`endTime` request fields:
a JavaScript number or a string. -/
inductive JSVal where
  | num (x : JSNum)
  | str (s : List Char)
  deriving DecidableEq

/-- Bottom section of `parseTimeToSeconds` (`railway-server.js` v2 lines
235-243): `Number(str)` followed by the NaN / non-finite / negative guard
returning 0, else `Math.floor`. -/
def numberFallback (s : List Char) : JSNum :=
  let p := jsNumOfString s
  if p.isNaN || !p.isFinite || jsLt p (.fin 0) then .fin 0 else jsFloor p

/-- The `H*3600 + M*60 + S` combination of the three-part branch. -/
def colonCombine3 (h m s : JSNum) : JSNum :=
  jsAdd (jsAdd (jsMul h (.fin 3600)) (jsMul m (.fin 60))) s

/-- The `M*60 + S` combination of the two-part branch. -/
def colonCombine2 (m s : JSNum) : JSNum :=
  jsAdd (jsMul m (.fin 60)) s

/-- `parseTimeToSeconds` from `railway-server.js` (v2, lines 192-243).
Number inputs: 0 when non-finite or negative, else `Math.floor`.  String
inputs containing a colon: split on `:`, map `Number` over the parts; with
three (resp. two) parts and no NaN part the result is `H*3600+M*60+S`
(resp. `M*60+S`), a NaN part gives 0, any other part count falls through
to the plain-number parse of the whole string.  Strings without a colon
take the plain-number parse directly. -/
def parseTimeToSeconds : JSVal → JSNum
  | .num x => if !x.isFinite || jsLt x (.fin 0) then .fin 0 else jsFloor x
  | .str s =>
    if ':' ∈ s then
      match (splitOnCh ':' s).map jsNumOfString with
      | [h, m, sec] =>
        if h.isNaN || m.isNaN || sec.isNaN then .fin 0 else colonCombine3 h m sec
      | [m, sec] =>
        if m.isNaN || sec.isNaN then .fin 0 else colonCombine2 m sec
      | _ => numberFallback s
    else numberFallback s

/-- Outcome of the range validation of the railway `/clip` handler. -/
inductive RangeOutcome where
  | invalidRange
  | invalidDuration
  | ok (d : JSNum)
  deriving DecidableEq

/-- Range and duration validation of the railway `/clip` handler (v2,
lines 294-328): reject with the invalid-time-range 400 when
`endSeconds <= startSeconds`; otherwise compute
`duration = Math.max(1, endSeconds - startSeconds)` and reject with the
invalid-duration 400 when it is not finite, not positive, or NaN. -/
def rangeCheck (s e : JSNum) : RangeOutcome :=
  if jsLe e s then .invalidRange
  else
    let d := jsMax (.fin 1) (jsSub e s)
    if !d.isFinite || jsLe d (.fin 0) || d.isNaN then .invalidDuration
    else .ok d

/-- The composed `normalizeRange` of the handler: parse both times, then
validate the range and duration. -/
def normalizeRange (st et : JSVal) : RangeOutcome :=
  rangeCheck (parseTimeToSeconds st) (parseTimeToSeconds et)

/-! ### Master-playlist variant selection (get-vod-stream/index.ts) -/

/-- Inner loop of the variant search (`index.ts` lines 146-152): the
first following line that is non-empty and does not start with `#`. -/
def findAfter : List (List Char) → Option (List Char)
  | [] => none
  | l :: ls =>
    if l ≠ [] && !(startsWithL l (strL ("#"))) then some l else findAfter ls

/-- Outer loop of the variant search (lines 141-155): scan for a line
containing the substring `chunked` (the `VIDEO="chunked"` test of the
source is subsumed by the plain `includes("chunked")` test); when found,
take the first following non-empty non-comment line; if that marker line
has no such follower, keep scanning. -/
def tier1 : List (List Char) → Option (List Char)
  | [] => none
  | l :: ls =>
    if containsSub l (strL ("chunked")) then
      match findAfter ls with
      | some u => some u
      | none => tier1 ls
    else tier1 ls

/-- Fallback search (lines 156-164): the first non-empty non-comment line
starting with `http`. -/
def tier2 : List (List Char) → Option (List Char)
  | [] => none
  | l :: ls =>
    if l ≠ [] && !(startsWithL l (strL ("#"))) && startsWithL l (strL ("http")) then some l
    else tier2 ls

/-- The playlist text split into trimmed lines (line 138). -/
def manifestLines (text : List Char) : List (List Char) :=
  (splitOnCh '\n' text).map trimList

/-- The chunked-URL selection of the `get-vod-stream` handler: tier 1,
then the `http` fallback. -/
def selectVariant (text : List Char) : Option (List Char) :=
  match tier1 (manifestLines text) with
  | some u => some u
  | none => tier2 (manifestLines text)

/-- Result of the selection step including the two error responses of the
handler (lines 166-177). -/
inductive VariantResult where
  | noVariant
  | notAbsolute (u : List Char)
  | chosen (u : List Char)
  deriving DecidableEq

/-- Selection followed by the absolute-URL validation of the handler. -/
def resolveVariant (text : List Char) : VariantResult :=
  match selectVariant text with
  | none => .noVariant
  | some u =>
    if startsWithL u (strL ("http://")) || startsWithL u (strL ("https://")) then .chosen u
    else .notAbsolute u

/-- Modelled from the claim wording of C6 (for comparison with
`selectVariant`): prefer the first non-comment non-blank line following a
tag line (a line starting with `#`) marking the chunked track; fall back
to the first absolute `http`/`https` line of the document. -/
def specTier1 : List (List Char) → Option (List Char)
  | [] => none
  | l :: ls =>
    if startsWithL l (strL ("#")) && containsSub l (strL ("chunked")) then
      match findAfter ls with
      | some u => some u
      | none => specTier1 ls
    else specTier1 ls

/-- Modelled from the claim wording of C6: the first absolute
`http`/`https` URI line. -/
def specTier2 : List (List Char) → Option (List Char)
  | [] => none
  | l :: ls =>
    if startsWithL l (strL ("http://")) || startsWithL l (strL ("https://")) then some l
    else specTier2 ls

/-- Modelled from the claim wording of C6: the two-tier selection rule as
the claim states it. -/
def specSelectVariant (text : List Char) : Option (List Char) :=
  match specTier1 (manifestLines text) with
  | some u => some u
  | none => specTier2 (manifestLines text)

/-! ### Playback-token validation (get-vod-stream/index.ts) -/

/-- The `data.videoPlaybackAccessToken` object of the GraphQL response:
either field may be absent (`none`) or present with a string value. -/
structure GqlTokenData where
  value : Option (List Char)
  signature : Option (List Char)
  deriving DecidableEq

/-- The GraphQL playback-token response as seen by the handler: HTTP
success flag plus the optional token object reached by the
`gqlJson?.data?.videoPlaybackAccessToken` chain. -/
structure GqlResponse where
  ok : Bool
  tokenData : Option GqlTokenData
  deriving DecidableEq

/-- A validated playback token. -/
structure PlaybackToken where
  value : List Char
  signature : List Char
  deriving DecidableEq

/-- Outcome of the playback-token step. -/
inductive AuthResult where
  | failed
  | token (t : PlaybackToken)
  deriving DecidableEq

/-- Playback-token validation of the `get-vod-stream` handler (lines
102-113): non-2xx responses fail; a missing token object fails; a missing
or empty (falsy) `value` or `signature` field fails; otherwise the token
is assembled from the two fields. -/
def getPlaybackToken (r : GqlResponse) : AuthResult :=
  if r.ok = false then .failed
  else
    match r.tokenData with
    | none => .failed
    | some td =>
      match td.value, td.signature with
      | some v, some s => if v = [] || s = [] then .failed else .token ⟨v, s⟩
      | _, _ => .failed

/-! ### Manifest rewriting (rewrite-m3u8/index.ts) -/

/-- Per-line rewrite (lines 50-68): trim the line; keep empty and
comment lines verbatim; keep lines that are already absolute verbatim;
otherwise emit `base ++ trimmed`. -/
def rewriteLine (base l : List Char) : List Char :=
  let t := trimList l
  if t = [] || startsWithL t (strL ("#")) then l
  else if startsWithL t (strL ("http://")) || startsWithL t (strL ("https://")) then l
  else base ++ t

/-- The full rewrite (lines 43-69): split on newlines, map the per-line
rewrite with `base = uri` truncated after its final slash, join with
newlines. -/
def rewriteText (uri text : List Char) : List Char :=
  joinCh '\n' ((splitOnCh '\n' text).map (rewriteLine (baseOf uri)))

/-- Modelled from the claim wording of C7 (for comparison with
`rewriteLine`): blank lines and lines starting with `#` pass unchanged,
lines starting with `http://`/`https://` pass unchanged, every other
non-empty line becomes `base` concatenated with the line itself. -/
def specRewriteLine (base l : List Char) : List Char :=
  if l = [] || startsWithL l (strL ("#")) then l
  else if startsWithL l (strL ("http://")) || startsWithL l (strL ("https://")) then l
  else base ++ l

/-- Modelled from the claim wording of C7: the whole-text version of
`specRewriteLine`. -/
def specRewriteText (uri text : List Char) : List Char :=
  joinCh '\n' ((splitOnCh '\n' text).map (specRewriteLine (baseOf uri)))

/-! ### Helper lemmas -/

/-- `startsWithL` characterised as prefix decomposition. -/
theorem startsWithL_iff : ∀ (l p : List Char), startsWithL l p = true ↔ ∃ r, l = p ++ r := by
  intro l p
  induction p generalizing l with
  | nil => simp [startsWithL]
  | cons q qs ih =>
    cases l with
    | nil => simp [startsWithL]
    | cons c cs =>
      simp only [startsWithL, Bool.and_eq_true, decide_eq_true_eq, ih, List.cons_append,
        List.cons.injEq]
      constructor
      · rintro ⟨rfl, r, rfl⟩
        exact ⟨r, rfl, rfl⟩
      · rintro ⟨r, rfl, rfl⟩
        exact ⟨rfl, r, rfl⟩

/-- A string starting with a slash starts with neither `http://` nor
`https://`. -/
theorem slash_not_http (r : List Char) :
    startsWithL ('/' :: r) (strL ("http://")) = false ∧
    startsWithL ('/' :: r) (strL ("https://")) = false := by
  constructor <;> rfl

section RatUnsealed

attribute [local semireducible] Rat.add Rat.mul Rat.sub

/-! ### Claim C1 -/

/-- C1, counterexample: a non-empty output buffer whose bytes nowhere
spell `ftyp` is still returned as success by the railway `/clip` handler
(the signature check only triggers a logged warning), contradicting the
claim that a failed signature check raises `ExtractionIntegrityError`
instead of returning the buffer. -/
theorem ftyp_warning_only_cex :
    (railwayFinish ("out.mp4") (.ok [0, 0, 0, 0])).1 = .clip [0, 0, 0, 0] true ∧
    isFtyp [0, 0, 0, 0] = false := by decide

/-- C1 (amended): under both strategies the extraction returns success
exactly when the output buffer is non-empty; the `ftyp` signature check
exists only in the railway service, where failing it merely sets the
logged warning flag on an otherwise successful response, and the
`process-clip` strategy performs no signature check at all. -/
theorem clip_success_iff_nonempty (buf : List Nat) (p it ot : String) :
    ((railwayFinish p (.ok buf)).1 = .serverError ↔ buf.length = 0) ∧
    (buf.length ≠ 0 → (railwayFinish p (.ok buf)).1 = .clip buf (!isFtyp buf)) ∧
    ((processClipLocalFinish it ot (.ok buf)).1 = .emptyOutput ↔ buf.length = 0) ∧
    (buf.length ≠ 0 → (processClipLocalFinish it ot (.ok buf)).1 = .clipBytes buf) := by
  by_cases h : buf.length = 0 <;> simp [railwayFinish, processClipLocalFinish, h]

/-- C1 witness: the amended statement applied to the single byte `0x00`. -/
theorem clip_success_iff_nonempty_w :
    (railwayFinish ("o.mp4") (.ok [0])).1 = .clip [0] (!isFtyp [0]) :=
  (clip_success_iff_nonempty [0] ("o.mp4") ("i.mp4") ("t.mp4")).2.1 (by decide)

/-! ### Claim C2 -/

/-- C2, counterexample: on the success path of the local-process strategy
the `process-clip` handler removes only the input temp file; the output
temp file is not on the removal list, contradicting the claim that every
temporary file is removed on every exit path. -/
theorem output_tmp_leak_cex :
    (processClipLocalFinish ("input-a.mp4") ("input-a-out.mp4") (.ok [1])).1 = .clipBytes [1] ∧
    ("input-a-out.mp4" : String) ∉
      (processClipLocalFinish ("input-a.mp4") ("input-a-out.mp4") (.ok [1])).2 := by decide

/-- C2 (amended): the railway handler removes its single temp file on
every exit path; the `process-clip` local strategy removes the input temp
file on every exit path but removes the output temp file only when the
ffmpeg step itself fails — on the success path and on the empty-output
path it is left behind. -/
theorem temp_cleanup_amended (it ot p : String) (r : FfmpegRun) (hne : it ≠ ot) :
    it ∈ (processClipLocalFinish it ot r).2 ∧
    (ot ∈ (processClipLocalFinish it ot r).2 ↔ r = .failed) ∧
    (railwayFinish p r).2 = [p] := by
  cases r with
  | failed => simp [processClipLocalFinish, railwayFinish]
  | ok out =>
    by_cases h : out.length = 0 <;>
      simp [processClipLocalFinish, railwayFinish, h, Ne.symm hne]

/-- C2 witness: the amended statement applied to concrete file names and
a successful one-byte output. -/
theorem temp_cleanup_amended_w :
    ("in.mp4" : String) ∈ (processClipLocalFinish ("in.mp4") ("out.mp4") (.ok [1])).2 :=
  (temp_cleanup_amended ("in.mp4") ("out.mp4") ("p.mp4") (.ok [1]) (by decide)).1

/-! ### Claim C3 -/

/-- C3, counterexample: `process-clip` does not reject a locator
beginning with `/`; a `/mnt/data` path is routed to the local disk read
branch (and extraction proceeds), while only the railway handler rejects
it. -/
theorem slash_locator_accepted_cex :
    processClipRoute (strL ("/mnt/data/vod.mp4")) = .localDisk ∧
    railwayValidVodUrl (strL ("/mnt/data/vod.mp4")) = false := by decide

/-- C3 (amended): the railway handler rejects every `/`-prefixed locator
before any network or subprocess call, but `process-clip` accepts them:
`/mnt/data` locators take the local disk route and all other `/`-prefixed
locators take the relative-asset route, both of which continue to the
extraction step. -/
theorem slash_locator_amended (s : List Char) :
    (startsWithL s (strL ("/")) = true → railwayValidVodUrl s = false) ∧
    (startsWithL s (strL ("/mnt/data")) = true → processClipRoute s = .localDisk) ∧
    (startsWithL s (strL ("/")) = true → startsWithL s (strL ("/mnt/data")) = false →
      processClipRoute s = .relativeAsset) := by
  refine ⟨fun h => ?_, fun h => ?_, fun h h2 => ?_⟩
  · obtain ⟨r, rfl⟩ := (startsWithL_iff s (strL ("/"))).1 h
    have h2 := slash_not_http r
    show (startsWithL ('/' :: r) (strL ("http://")) ||
      startsWithL ('/' :: r) (strL ("https://"))) = false
    rw [h2.1, h2.2]
    rfl
  · simp [processClipRoute, h]
  · simp [processClipRoute, h, h2]

/-- C3 witness: the amended statement applied to a concrete relative
asset path. -/
theorem slash_locator_amended_w :
    processClipRoute (strL ("/assets/sample.mp4")) = .relativeAsset :=
  (slash_locator_amended (strL ("/assets/sample.mp4"))).2.2 (by decide) (by decide)

/-! ### Claim C10 -/

/-- C10: the time parser of the remote extraction service is not total in
the claimed sense.  Its own header comment says it never returns NaN, yet
`parseTimeToSeconds("Infinity:-Infinity")` evaluates to NaN (the two
parts pass the per-part NaN guards, and `Infinity*60 + (-Infinity)` is
NaN), and `parseTimeToSeconds("Infinity:00:00")` evaluates to Infinity
rather than a finite number or the claimed fallback 0. -/
theorem parse_time_nan_bug :
    parseTimeToSeconds (.str (strL ("Infinity:-Infinity"))) = .nan ∧
    parseTimeToSeconds (.str (strL ("Infinity:00:00"))) = .posInf := by decide

/-! ### Claim C4, counterexample -/

/-- C4, counterexample: with `startTime = 0` and `endTime =
"Infinity:0"` the normalized end (Infinity) is strictly greater than the
normalized start, yet the handler rejects the request through the
duration guard instead of succeeding, so success is not equivalent to
`end > start`. -/
theorem range_iff_cex :
    jsLt (parseTimeToSeconds (.num (.fin 0)))
      (parseTimeToSeconds (.str (strL ("Infinity:0")))) = true ∧
    normalizeRange (.num (.fin 0)) (.str (strL ("Infinity:0"))) = .invalidDuration := by decide

/-! ### Claim C5, counterexample -/

/-- C5, counterexample: the colon branch parses each part with the
JavaScript `Number` conversion without a sign check, so the colon string
`"0:-5"` normalizes to the negative value `-5`, contradicting the claim
that normalizing any colon string yields a non-negative integer. -/
theorem colon_negative_cex :
    parseTimeToSeconds (.str (strL ("0:-5"))) = .fin (-5) ∧ ((-5 : ℚ) < 0) := by decide

/-- `jsOfRat` keeps sub-threshold values finite and exact. -/
theorem jsOfRat_fin {q : ℚ} (h1 : q < dblOverflow) (h2 : -dblOverflow < q) :
    jsOfRat q = .fin q := by
  unfold jsOfRat
  rw [if_neg (not_le.2 h1), if_neg (not_le.2 (by linarith))]

/-- The overflow threshold is positive. -/
theorem dblOverflow_pos : (0 : ℚ) < dblOverflow := by
  rw [dblOverflow]
  have h : (0 : ℕ) < 2 ^ 1024 - 2 ^ 970 := by decide
  exact_mod_cast h

/-- Compare a rational against the overflow threshold through a natural
bound. -/
theorem lt_dblOverflow_of_nat (n : ℕ) {q : ℚ} (hq : q ≤ (n : ℚ))
    (hn : n < 2 ^ 1024 - 2 ^ 970) : q < dblOverflow := by
  rw [dblOverflow]
  calc q ≤ (n : ℚ) := hq
    _ < ((2 ^ 1024 - 2 ^ 970 : ℕ) : ℚ) := by exact_mod_cast hn

/-- `Math.max(1, x)` on a finite value is the finite maximum. -/
theorem jsMax_one_fin (x : ℚ) : jsMax (.fin 1) (.fin x) = .fin (max 1 x) := by
  simp only [jsMax, JSNum.isNaN, Bool.or_self, jsLe]
  rw [max_def]
  by_cases h : (1 : ℚ) ≤ x <;> simp [h]

/-- `rangeCheck` with its let-binding expanded. -/
theorem rangeCheck_eq (s e : JSNum) :
    rangeCheck s e =
      if jsLe e s then .invalidRange
      else
        if !(jsMax (.fin 1) (jsSub e s)).isFinite ||
            jsLe (jsMax (.fin 1) (jsSub e s)) (.fin 0) ||
            (jsMax (.fin 1) (jsSub e s)).isNaN then .invalidDuration
        else .ok (jsMax (.fin 1) (jsSub e s)) := rfl

/-- On finite values whose difference stays below the overflow
threshold, the range check succeeds exactly on increasing pairs, with
duration `max 1 (e - s)`. -/
theorem rangeCheck_ok_of_small {q1 q2 : ℚ} (hlt : q1 < q2)
    (hov : q2 - q1 < dblOverflow) :
    rangeCheck (.fin q1) (.fin q2) = .ok (.fin (max 1 (q2 - q1))) := by
  have hpos : (0 : ℚ) < q2 - q1 := sub_pos.2 hlt
  have hovp := dblOverflow_pos
  have hsub : jsSub (.fin q2) (.fin q1) = .fin (q2 - q1) := by
    show jsOfRat (q2 + -q1) = _
    rw [← sub_eq_add_neg]
    exact jsOfRat_fin hov (by linarith)
  have hmax1 : (1 : ℚ) ≤ max 1 (q2 - q1) := le_max_left _ _
  rw [rangeCheck_eq, if_neg (by simp [jsLe, not_le.2 hlt]), hsub, jsMax_one_fin,
    if_neg (by simp [JSNum.isFinite, JSNum.isNaN, jsLe])]

/-- Full case analysis of `rangeCheck`: success exactly when the end
strictly exceeds the start and the computed difference is finite. -/
theorem rangeCheck_cases (s e : JSNum) :
    ((∃ d, rangeCheck s e = .ok d) ↔
      (jsLt s e = true ∧ (jsSub e s).isFinite = true)) ∧
    (jsLe e s = true → rangeCheck s e = .invalidRange) ∧
    (∀ d, rangeCheck s e = .ok d → d = jsMax (.fin 1) (jsSub e s)) := by
  cases s with
  | fin q1 =>
    cases e with
    | fin q2 =>
      by_cases hle : q2 ≤ q1
      · refine ⟨?_, fun _ => ?_, fun d hd => ?_⟩
        · rw [rangeCheck_eq, if_pos (by simp [jsLe, hle])]
          simp [jsLt, not_lt.2 hle]
        · rw [rangeCheck_eq, if_pos (by simp [jsLe, hle])]
        · rw [rangeCheck_eq, if_pos (by simp [jsLe, hle])] at hd
          exact absurd hd (by simp)
      · have hlt : q1 < q2 := lt_of_not_le hle
        have hpos : (0 : ℚ) < q2 - q1 := sub_pos.2 hlt
        have hovp := dblOverflow_pos
        by_cases hov : q2 - q1 < dblOverflow
        · have hk := rangeCheck_ok_of_small hlt hov
          have hsub : jsSub (.fin q2) (.fin q1) = .fin (q2 - q1) := by
            show jsOfRat (q2 + -q1) = _
            rw [← sub_eq_add_neg]
            exact jsOfRat_fin hov (by linarith)
          refine ⟨?_, fun hc => ?_, fun d hd => ?_⟩
          · simp [hk, hsub, jsLt, hlt, JSNum.isFinite]
          · exact absurd (by simpa [jsLe] using hc) hle
          · rw [hk] at hd
            rw [hsub, jsMax_one_fin]
            cases hd
            rfl
        · have hsub : jsSub (.fin q2) (.fin q1) = .posInf := by
            show jsOfRat (q2 + -q1) = _
            rw [← sub_eq_add_neg]
            unfold jsOfRat
            rw [if_pos (not_lt.1 hov)]
          have hrc : rangeCheck (.fin q1) (.fin q2) = .invalidDuration := by
            rw [rangeCheck_eq, if_neg (by simp [jsLe, hle]), hsub]
            rfl
          refine ⟨?_, fun hc => ?_, fun d hd => ?_⟩
          · simp [hrc, hsub, JSNum.isFinite]
          · exact absurd (by simpa [jsLe] using hc) hle
          · rw [hrc] at hd
            exact absurd hd (by simp)
    | nan =>
      simp [rangeCheck_eq, jsLe, jsLt, jsSub, jsNeg, jsAdd, jsMax, JSNum.isNaN, JSNum.isFinite]
    | posInf =>
      simp [rangeCheck_eq, jsLe, jsLt, jsSub, jsNeg, jsAdd, jsMax, JSNum.isNaN, JSNum.isFinite]
    | negInf =>
      simp [rangeCheck_eq, jsLe, jsLt, jsSub, jsNeg, jsAdd, jsMax, JSNum.isNaN, JSNum.isFinite]
  | nan =>
    cases e <;>
      simp [rangeCheck_eq, jsLe, jsLt, jsSub, jsNeg, jsAdd, jsMax, JSNum.isNaN, JSNum.isFinite]
  | posInf =>
    cases e <;>
      simp [rangeCheck_eq, jsLe, jsLt, jsSub, jsNeg, jsAdd, jsMax, JSNum.isNaN, JSNum.isFinite]
  | negInf =>
    cases e <;>
      simp [rangeCheck_eq, jsLe, jsLt, jsSub, jsNeg, jsAdd, jsMax, JSNum.isNaN, JSNum.isFinite]

/-! ### Claim C4, amended -/

/-- C4 (amended): the range validation succeeds exactly when the
normalized end is strictly greater than the normalized start and the
computed difference `end - start` is finite — double subtraction of two
finite values overflows to Infinity at the threshold, and the handler's
duration guard then rejects, so `end > start` alone does not imply
success; whenever `end <= start` in the JavaScript comparison the
invalid-range client error is returned; on success the duration is
`Math.max(1, end - start)`; for start and end values that are integers
of magnitude at most `2^52` — a range in which double arithmetic is
exact, covering every realistic time — success is exactly `end > start`
with that duration; and `normalizeRange(10, 15)` yields duration 5. -/
theorem normalizeRange_amended (st et : JSVal) :
    ((∃ d, normalizeRange st et = .ok d) ↔
      (jsLt (parseTimeToSeconds st) (parseTimeToSeconds et) = true ∧
        (jsSub (parseTimeToSeconds et) (parseTimeToSeconds st)).isFinite = true)) ∧
    (jsLe (parseTimeToSeconds et) (parseTimeToSeconds st) = true →
      normalizeRange st et = .invalidRange) ∧
    (∀ d, normalizeRange st et = .ok d →
      d = jsMax (.fin 1) (jsSub (parseTimeToSeconds et) (parseTimeToSeconds st))) ∧
    (∀ n1 n2 : ℤ, n1.natAbs ≤ 2 ^ 52 → n2.natAbs ≤ 2 ^ 52 → n1 < n2 →
      rangeCheck (.fin (n1 : ℚ)) (.fin (n2 : ℚ)) =
        .ok (.fin (max 1 ((n2 : ℚ) - (n1 : ℚ))))) ∧
    normalizeRange (.num (.fin 10)) (.num (.fin 15)) = .ok (.fin 5) := by
  refine ⟨(rangeCheck_cases _ _).1, (rangeCheck_cases _ _).2.1, (rangeCheck_cases _ _).2.2,
    fun n1 n2 h1 h2 hlt => ?_, by decide⟩
  have hq : (n1 : ℚ) < (n2 : ℚ) := by exact_mod_cast hlt
  have hbound : n2 - n1 ≤ 2 ^ 53 := by omega
  have hcast : (n2 : ℚ) - (n1 : ℚ) ≤ ((2 ^ 53 : ℕ) : ℚ) := by exact_mod_cast hbound
  exact rangeCheck_ok_of_small hq (lt_dblOverflow_of_nat (2 ^ 53) hcast (by decide))

/-- C4 witness: the amended statement applied to the reversed example
range (invalid-range client error) and to the bounded-integer case at
the example range 10..15. -/
theorem normalizeRange_amended_w :
    normalizeRange (.num (.fin 15)) (.num (.fin 10)) = .invalidRange ∧
    rangeCheck (.fin ((10 : ℤ) : ℚ)) (.fin ((15 : ℤ) : ℚ)) =
      .ok (.fin (max 1 (((15 : ℤ) : ℚ) - ((10 : ℤ) : ℚ)))) :=
  ⟨(normalizeRange_amended (.num (.fin 15)) (.num (.fin 10))).2.1 (by decide),
    (normalizeRange_amended (.num (.fin 0)) (.num (.fin 0))).2.2.2.1 10 15
      (by decide) (by decide) (by decide)⟩

/-! ### Claim C5, amended -/

/-- A decimal digit is not whitespace. -/
theorem isDigit_not_ws (c : Char) (h : isDigit c = true) : isWs c = false := by
  by_contra hne
  have hws : isWs c = true := by revert hne; cases hz : isWs c <;> simp
  simp only [isWs, Bool.or_eq_true, decide_eq_true_eq] at hws
  rcases hws with ((rfl | rfl) | rfl) | rfl <;> revert h <;> decide

/-- The colon separator is not a digit, so it is absent from all-digit
strings. -/
theorem colon_not_mem_digits {p : List Char} (hp : ∀ c ∈ p, isDigit c = true) : ':' ∉ p := by
  intro hm
  have h := hp _ hm
  revert h
  decide

/-- Nonempty all-digit strings are untouched by `trim`. -/
theorem trimList_digits {p : List Char} (hp : ∀ c ∈ p, isDigit c = true) : trimList p = p := by
  unfold trimList
  have h1 : p.dropWhile isWs = p := by
    cases p with
    | nil => rfl
    | cons a as =>
      rw [List.dropWhile_cons_of_neg]
      simp [isDigit_not_ws a (hp a (by simp))]
  rw [h1]
  have h2 : p.reverse.dropWhile isWs = p.reverse := by
    cases hr : p.reverse with
    | nil => rfl
    | cons a as =>
      have ha : a ∈ p := by
        have hm : a ∈ p.reverse := by rw [hr]; simp
        simpa using hm
      rw [List.dropWhile_cons_of_neg]
      simp [isDigit_not_ws a (hp a ha)]
  rw [h2, List.reverse_reverse]

/-- `parseUnsigned` evaluates a nonempty all-digit string to its decimal
value. -/
theorem parseUnsigned_digits {p : List Char} (hne : p ≠ [])
    (hp : ∀ c ∈ p, isDigit c = true) :
    parseUnsigned p = some ((natOfDigits p : ℚ)) := by
  unfold parseUnsigned
  have ht : p.takeWhile isDigit = p := List.takeWhile_eq_self_iff.2 (by simpa using hp)
  have hd : p.dropWhile isDigit = [] := List.dropWhile_eq_nil_iff.2 (by simpa using hp)
  simp only [ht, hd]
  simp [hne]

/-- The `Number` conversion maps a nonempty all-digit string to its
decimal value. -/
theorem jsNumOfString_digits {p : List Char} (hne : p ≠ [])
    (hp : ∀ c ∈ p, isDigit c = true) :
    jsNumOfString p = .fin ((natOfDigits p : ℚ)) := by
  obtain ⟨a, as, rfl⟩ := List.exists_cons_of_ne_nil hne
  have ha : isDigit a = true := hp a (by simp)
  have hI : a ≠ 'I' := fun he => by subst he; revert ha; decide
  have hplus : a ≠ '+' := fun he => by subst he; revert ha; decide
  have hminus : a ≠ '-' := fun he => by subst he; revert ha; decide
  have h1 : a :: as ≠ strL ("Infinity") := by
    intro he
    have hh := congrArg List.head? he
    rw [show (strL ("Infinity")).head? = some 'I' from rfl] at hh
    exact hI (by simpa using hh)
  have h2 : a :: as ≠ strL ("+Infinity") := by
    intro he
    have hh := congrArg List.head? he
    rw [show (strL ("+Infinity")).head? = some '+' from rfl] at hh
    exact hplus (by simpa using hh)
  have h3 : a :: as ≠ strL ("-Infinity") := by
    intro he
    have hh := congrArg List.head? he
    rw [show (strL ("-Infinity")).head? = some '-' from rfl] at hh
    exact hminus (by simpa using hh)
  unfold jsNumOfString
  rw [trimList_digits hp]
  rw [jsNumOfTrimmed]
  rw [if_neg (by simp), if_neg (by simp [h1, h2]), if_neg (by simp [h3]),
    if_neg (by simp [startsWithL, hplus]), if_neg (by simp [startsWithL, hminus])]
  rw [parseUnsigned_digits hne hp]
  rfl

/-- `splitOnCh` never returns the empty list. -/
theorem splitOnCh_ne_nil (sep : Char) (l : List Char) : splitOnCh sep l ≠ [] := by
  cases l with
  | nil => simp [splitOnCh]
  | cons c cs =>
    simp only [splitOnCh]
    cases splitOnCh sep cs with
    | nil => simp
    | cons x xs => by_cases hc : c = sep <;> simp [hc]

/-- Splitting a separator-free string returns it whole. -/
theorem splitOnCh_not_mem {sep : Char} {l : List Char} (h : sep ∉ l) :
    splitOnCh sep l = [l] := by
  induction l with
  | nil => rfl
  | cons c cs ih =>
    have hc : c ≠ sep := by rintro rfl; exact h (by simp)
    have h2 : sep ∉ cs := fun hm => h (by simp [hm])
    simp [splitOnCh, ih h2, hc]

/-- Splitting peels off a leading separator-free piece. -/
theorem splitOnCh_append {sep : Char} {l r : List Char} (h : sep ∉ l) :
    splitOnCh sep (l ++ sep :: r) = l :: splitOnCh sep r := by
  induction l with
  | nil =>
    simp only [List.nil_append, splitOnCh]
    cases hs : splitOnCh sep r with
    | nil => exact absurd hs (splitOnCh_ne_nil sep r)
    | cons x xs => simp
  | cons c cs ih =>
    have hc : c ≠ sep := by rintro rfl; exact h (by simp)
    have h2 : sep ∉ cs := fun hm => h (by simp [hm])
    simp [splitOnCh, ih h2, hc]

/-- Digits have value at most nine. -/
theorem digVal_le_nine {c : Char} (h : isDigit c = true) : digVal c ≤ 9 := by
  simp only [isDigit, Bool.and_eq_true, decide_eq_true_eq] at h
  have h9 : c.toNat ≤ 57 := by
    have h2 := h.2
    simp only [Char.le_def] at h2
    exact h2
  unfold digVal
  rw [show ('0').toNat = 48 from rfl]
  omega

/-- A left fold over digits grows by at most a factor ten per digit. -/
theorem foldl_digits_lt : ∀ (p : List Char), (∀ c ∈ p, isDigit c = true) →
    ∀ a : ℕ, p.foldl (fun a c => a * 10 + digVal c) a < (a + 1) * 10 ^ p.length := by
  intro p
  induction p with
  | nil =>
    intro _ a
    simp only [List.foldl_nil, List.length_nil, pow_zero, mul_one]
    exact Nat.lt_succ_self a
  | cons c cs ih =>
    intro hp a
    have hd : digVal c ≤ 9 := digVal_le_nine (hp c (by simp))
    have hrec := ih (fun x hx => hp x (by simp [hx])) (a * 10 + digVal c)
    have hstep : (a * 10 + digVal c + 1) * 10 ^ cs.length ≤ (a + 1) * 10 ^ (cs.length + 1) := by
      have hten : a * 10 + digVal c + 1 ≤ (a + 1) * 10 := by omega
      calc (a * 10 + digVal c + 1) * 10 ^ cs.length
          ≤ ((a + 1) * 10) * 10 ^ cs.length := Nat.mul_le_mul_right _ hten
        _ = (a + 1) * 10 ^ (cs.length + 1) := by ring
    simp only [List.foldl_cons, List.length_cons]
    exact lt_of_lt_of_le hrec hstep

/-- A digit string of at most nine digits denotes a value below `10^9`,
the bound under which every intermediate of the colon formula stays an
exact integer far below `2^53`. -/
theorem natOfDigits_lt_pow9 {p : List Char} (hp : ∀ c ∈ p, isDigit c = true)
    (hl : p.length ≤ 9) : natOfDigits p < 10 ^ 9 := by
  have h := foldl_digits_lt p hp 0
  have h2 : natOfDigits p < 10 ^ p.length := by simpa [natOfDigits] using h
  exact lt_of_lt_of_le h2 (Nat.pow_le_pow_right (by norm_num) hl)

/-- The three-part colon combination on non-negative values below `10^9`
stays far below the overflow threshold and is computed exactly. -/
theorem colonCombine3_fin (a b c : ℚ) (ha0 : 0 ≤ a) (ha : a < 10 ^ 9)
    (hb0 : 0 ≤ b) (hb : b < 10 ^ 9) (hc0 : 0 ≤ c) (hc : c < 10 ^ 9) :
    colonCombine3 (.fin a) (.fin b) (.fin c) = .fin (a * 3600 + b * 60 + c) := by
  have hovp := dblOverflow_pos
  have hbig : ((10 : ℚ) ^ 9) * 3600 + (10 : ℚ) ^ 9 * 60 + (10 : ℚ) ^ 9 < dblOverflow :=
    lt_dblOverflow_of_nat (10 ^ 9 * 3600 + 10 ^ 9 * 60 + 10 ^ 9)
      (le_of_eq (by push_cast; ring)) (by decide)
  have ca : a * 3600 ≤ (10 : ℚ) ^ 9 * 3600 := by nlinarith
  have cb : b * 60 ≤ (10 : ℚ) ^ 9 * 60 := by nlinarith
  have na : 0 ≤ a * 3600 := mul_nonneg ha0 (by norm_num)
  have nb : 0 ≤ b * 60 := mul_nonneg hb0 (by norm_num)
  have hn9 : (0 : ℚ) ≤ (10 : ℚ) ^ 9 * 60 := by norm_num
  have hn9a : (0 : ℚ) ≤ (10 : ℚ) ^ 9 * 3600 := by norm_num
  have hn9b : (0 : ℚ) ≤ (10 : ℚ) ^ 9 := by norm_num
  have h1 : jsMul (.fin a) (.fin 3600) = .fin (a * 3600) := by
    show jsOfRat (a * 3600) = _
    exact jsOfRat_fin (by linarith) (by linarith)
  have h2 : jsMul (.fin b) (.fin 60) = .fin (b * 60) := by
    show jsOfRat (b * 60) = _
    exact jsOfRat_fin (by linarith) (by linarith)
  have h3 : jsAdd (.fin (a * 3600)) (.fin (b * 60)) = .fin (a * 3600 + b * 60) := by
    show jsOfRat (a * 3600 + b * 60) = _
    exact jsOfRat_fin (by linarith) (by linarith)
  have h4 : jsAdd (.fin (a * 3600 + b * 60)) (.fin c) = .fin (a * 3600 + b * 60 + c) := by
    show jsOfRat (a * 3600 + b * 60 + c) = _
    exact jsOfRat_fin (by linarith) (by linarith)
  unfold colonCombine3
  rw [h1, h2, h3, h4]

/-- C5 (amended): for numbers, non-finite and negative inputs normalize
to 0 and non-negative finite inputs to their floor (so
`normalize(-7) = 0`); the examples `normalize("01:02:03") = 3723` and
`normalize("2:05") = 125` hold; and for a colon string whose three parts
are plain digit strings of at most nine digits each — a range in which
every intermediate of the double computation is an exact integer far
below `2^53` — the result is the non-negative integer
`H*3600 + M*60 + S`.  The parts are parsed by the JavaScript `Number`
conversion with no sign or integrality check, so a signed or fractional
part makes the result negative or fractional (see the counterexample),
and longer digit parts are subject to double rounding and overflow,
which is why the claim's blanket non-negative-integer statement fails. -/
theorem timeNormalizer_amended :
    parseTimeToSeconds (.str (strL ("01:02:03"))) = .fin 3723 ∧
    parseTimeToSeconds (.str (strL ("2:05"))) = .fin 125 ∧
    parseTimeToSeconds (.num (.fin (-7))) = .fin 0 ∧
    (∀ q : ℚ, 0 ≤ q → parseTimeToSeconds (.num (.fin q)) = .fin ((⌊q⌋ : ℚ))) ∧
    (∀ q : ℚ, q < 0 → parseTimeToSeconds (.num (.fin q)) = .fin 0) ∧
    parseTimeToSeconds (.num .nan) = .fin 0 ∧
    parseTimeToSeconds (.num .posInf) = .fin 0 ∧
    (∀ p1 p2 p3 : List Char, p1 ≠ [] → p2 ≠ [] → p3 ≠ [] →
      p1.length ≤ 9 → p2.length ≤ 9 → p3.length ≤ 9 →
      (∀ c ∈ p1, isDigit c = true) → (∀ c ∈ p2, isDigit c = true) →
      (∀ c ∈ p3, isDigit c = true) →
      parseTimeToSeconds (.str (p1 ++ ':' :: (p2 ++ ':' :: p3))) =
        .fin ((natOfDigits p1 : ℚ) * 3600 + (natOfDigits p2 : ℚ) * 60 +
          (natOfDigits p3 : ℚ)) ∧
      (0 : ℚ) ≤ (natOfDigits p1 : ℚ) * 3600 + (natOfDigits p2 : ℚ) * 60 +
        (natOfDigits p3 : ℚ)) := by
  refine ⟨by decide, by decide, by decide, fun q hq => ?_, fun q hq => ?_, by decide, by decide,
    fun p1 p2 p3 h1 h2 h3 hl1 hl2 hl3 d1 d2 d3 => ?_⟩
  · simp [parseTimeToSeconds, JSNum.isFinite, jsLt, jsFloor, not_lt.mpr hq]
  · simp [parseTimeToSeconds, JSNum.isFinite, jsLt, jsFloor, hq]
  · have hmem : ':' ∈ p1 ++ ':' :: (p2 ++ ':' :: p3) := by simp
    have q1 : (natOfDigits p1 : ℚ) < 10 ^ 9 := by
      exact_mod_cast natOfDigits_lt_pow9 d1 hl1
    have q2 : (natOfDigits p2 : ℚ) < 10 ^ 9 := by
      exact_mod_cast natOfDigits_lt_pow9 d2 hl2
    have q3 : (natOfDigits p3 : ℚ) < 10 ^ 9 := by
      exact_mod_cast natOfDigits_lt_pow9 d3 hl3
    constructor
    · rw [parseTimeToSeconds, if_pos hmem,
        splitOnCh_append (colon_not_mem_digits d1),
        splitOnCh_append (colon_not_mem_digits d2),
        splitOnCh_not_mem (colon_not_mem_digits d3)]
      rw [List.map_cons, List.map_cons, List.map_singleton,
        jsNumOfString_digits h1 d1, jsNumOfString_digits h2 d2, jsNumOfString_digits h3 d3]
      simp only [JSNum.isNaN, Bool.or_self]
      rw [if_neg (by decide), colonCombine3_fin _ _ _ (Nat.cast_nonneg _) q1
        (Nat.cast_nonneg _) q2 (Nat.cast_nonneg _) q3]
    · positivity

/-- C5 witness: the amended statement applied to the number 7 and to the
digit parts of `"1:00:00"`. -/
theorem timeNormalizer_amended_w :
    parseTimeToSeconds (.num (.fin 7)) = .fin ((⌊(7 : ℚ)⌋ : ℚ)) ∧
    parseTimeToSeconds (.str (strL ("1:00:00"))) =
      .fin ((natOfDigits (strL ("1")) : ℚ) * 3600 + (natOfDigits (strL ("00")) : ℚ) * 60 +
        (natOfDigits (strL ("00")) : ℚ)) :=
  ⟨timeNormalizer_amended.2.2.2.1 7 (by norm_num),
    (timeNormalizer_amended.2.2.2.2.2.2.2 (strL ("1")) (strL ("00")) (strL ("00"))
      (by decide) (by decide) (by decide) (by decide) (by decide) (by decide)
      (by decide) (by decide) (by decide)).1⟩

/-! ### Claim C6 -/

/-- Whatever `findAfter` returns is a non-empty non-comment member of the
scanned lines. -/
theorem findAfter_mem : ∀ (ls : List (List Char)) (u : List Char), findAfter ls = some u →
    u ∈ ls ∧ u ≠ [] ∧ startsWithL u (strL ("#")) = false := by
  intro ls
  induction ls with
  | nil => intro u h; simp [findAfter] at h
  | cons l ls ih =>
    intro u h
    rw [findAfter] at h
    split at h
    · rename_i hc
      have hu := Option.some.inj h
      subst hu
      simp only [Bool.and_eq_true, Bool.not_eq_true', decide_eq_true_eq] at hc
      exact ⟨List.mem_cons_self _ _, hc.1, hc.2⟩
    · have hr := ih u h
      exact ⟨List.mem_cons_of_mem _ hr.1, hr.2⟩

/-- Whatever `tier1` returns is a non-empty non-comment member of the
scanned lines. -/
theorem tier1_mem : ∀ (ls : List (List Char)) (u : List Char), tier1 ls = some u →
    u ∈ ls ∧ u ≠ [] ∧ startsWithL u (strL ("#")) = false := by
  intro ls
  induction ls with
  | nil => intro u h; simp [tier1] at h
  | cons l ls ih =>
    intro u h
    rw [tier1] at h
    split at h
    · split at h
      · rename_i v hv
        have hu := Option.some.inj h
        subst hu
        have hf := findAfter_mem ls v hv
        exact ⟨List.mem_cons_of_mem _ hf.1, hf.2⟩
      · have hr := ih u h
        exact ⟨List.mem_cons_of_mem _ hr.1, hr.2⟩
    · have hr := ih u h
      exact ⟨List.mem_cons_of_mem _ hr.1, hr.2⟩

/-- Whatever `tier2` returns is a non-empty non-comment member of the
scanned lines. -/
theorem tier2_mem : ∀ (ls : List (List Char)) (u : List Char), tier2 ls = some u →
    u ∈ ls ∧ u ≠ [] ∧ startsWithL u (strL ("#")) = false := by
  intro ls
  induction ls with
  | nil => intro u h; simp [tier2] at h
  | cons l ls ih =>
    intro u h
    rw [tier2] at h
    split at h
    · rename_i hc
      have hu := Option.some.inj h
      subst hu
      simp only [Bool.and_eq_true, Bool.not_eq_true', decide_eq_true_eq] at hc
      exact ⟨List.mem_cons_self _ _, hc.1.1, hc.1.2⟩
    · have hr := ih u h
      exact ⟨List.mem_cons_of_mem _ hr.1, hr.2⟩

/-- Without any `chunked` substring the first tier finds nothing. -/
theorem tier1_none : ∀ {ls : List (List Char)},
    (∀ l ∈ ls, containsSub l (strL ("chunked")) = false) → tier1 ls = none := by
  intro ls
  induction ls with
  | nil => intro _; rfl
  | cons l ls ih =>
    intro h
    rw [tier1]
    rw [h l (List.mem_cons_self l ls)]
    exact ih fun x hx => h x (List.mem_cons_of_mem _ hx)

/-- C6, counterexample: the outer loop matches any line containing the
substring `chunked`, not only tag lines.  On a manifest whose first line
is itself an absolute URI containing `/chunked/`, the code selects the
following line, while the claim's two-tier rule (no chunked tag line, so
first absolute URI wins) selects the first line. -/
theorem variant_substring_cex :
    selectVariant (strL ("https://a/chunked/v.m3u8\nhttps://b/720p.m3u8")) =
      some (strL ("https://b/720p.m3u8")) ∧
    specSelectVariant (strL ("https://a/chunked/v.m3u8\nhttps://b/720p.m3u8")) =
      some (strL ("https://a/chunked/v.m3u8")) := by decide

/-- C6 (amended): the selection is two-tier, but tier one is keyed on any
line containing the substring `chunked` (tag line or not), taking the
first following non-empty non-comment line; tier two is the first
non-empty non-comment line starting with `http`; with no candidate the
handler answers the no-stream-URL error.  On the spec's example manifest
the chunked-tagged line is followed by `720p60/index.m3u8` and that line
is selected. -/
theorem variant_selection_amended :
    selectVariant
        (strL ("#EXT-X-STREAM-INF:BANDWIDTH=1000,VIDEO=\"chunked\"\n720p60/index.m3u8")) =
      some (strL ("720p60/index.m3u8")) ∧
    (∀ text u, selectVariant text = some u →
      u ∈ manifestLines text ∧ u ≠ [] ∧ startsWithL u (strL ("#")) = false) ∧
    (∀ text, (∀ l ∈ manifestLines text, containsSub l (strL ("chunked")) = false) →
      selectVariant text = tier2 (manifestLines text)) ∧
    (∀ text, selectVariant text = none → resolveVariant text = .noVariant) := by
  refine ⟨by decide, fun text u h => ?_, fun text h => ?_, fun text h => ?_⟩
  · rw [selectVariant] at h
    split at h
    · rename_i v hv
      have hu := Option.some.inj h
      subst hu
      exact tier1_mem _ _ hv
    · exact tier2_mem _ _ h
  · rw [selectVariant, tier1_none h]
  · rw [resolveVariant, h]

/-- C6 witness: the amended statement applied to a manifest with no
candidate line at all. -/
theorem variant_selection_amended_w :
    resolveVariant (strL ("no stream lines")) = .noVariant :=
  variant_selection_amended.2.2.2 (strL ("no stream lines")) (by decide)

/-! ### Claim C7 -/

/-- The seven characters of the `http://` scheme marker. -/
theorem strL_http : strL ("http://") = ['h', 't', 't', 'p', ':', '/', '/'] := rfl

/-- The eight characters of the `https://` scheme marker. -/
theorem strL_https : strL ("https://") = ['h', 't', 't', 'p', 's', ':', '/', '/'] := rfl

/-- `rewriteLine` with its let-binding expanded. -/
theorem rewriteLine_eq (base l : List Char) :
    rewriteLine base l =
      if trimList l = [] || startsWithL (trimList l) (strL ("#")) then l
      else if startsWithL (trimList l) (strL ("http://")) ||
          startsWithL (trimList l) (strL ("https://")) then l
      else base ++ trimList l := rfl

/-- A string starting with `http://` is non-empty and is not a comment
line. -/
theorem http_head {t : List Char} (h : startsWithL t (strL ("http://")) = true) :
    t ≠ [] ∧ startsWithL t (strL ("#")) = false := by
  obtain ⟨r, rfl⟩ := (startsWithL_iff _ _).1 h
  exact ⟨by simp [strL_http], rfl⟩

/-- A string starting with `https://` is non-empty and is not a comment
line. -/
theorem https_head {t : List Char} (h : startsWithL t (strL ("https://")) = true) :
    t ≠ [] ∧ startsWithL t (strL ("#")) = false := by
  obtain ⟨r, rfl⟩ := (startsWithL_iff _ _).1 h
  exact ⟨by simp [strL_https], rfl⟩

/-- `baseOf` is the locator truncated after its final slash: the locator
is `baseOf` followed by a slash-free remainder, and `baseOf` is empty or
ends in a slash. -/
theorem baseOf_spec : ∀ l : List Char, ∃ r, l = baseOf l ++ r ∧ '/' ∉ r ∧
    (baseOf l = [] ∨ ∃ b, baseOf l = b ++ ['/']) := by
  intro l
  induction l with
  | nil => exact ⟨[], rfl, by simp, Or.inl rfl⟩
  | cons c cs ih =>
    by_cases hm : '/' ∈ cs
    · obtain ⟨r, hr, hnr, hlast⟩ := ih
      refine ⟨r, ?_, hnr, ?_⟩
      · rw [baseOf, if_pos hm, List.cons_append, ← hr]
      · rw [baseOf, if_pos hm]
        rcases hlast with hnil | ⟨b, hb⟩
        · rw [hr, hnil, List.nil_append] at hm
          exact absurd hm hnr
        · exact Or.inr ⟨c :: b, by rw [hb, List.cons_append]⟩
    · by_cases hc : c = '/'
      · subst hc
        have hb : baseOf ('/' :: cs) = ['/'] := by rw [baseOf, if_neg hm, if_pos rfl]
        refine ⟨cs, ?_, hm, Or.inr ⟨[], by rw [hb, List.nil_append]⟩⟩
        rw [hb]
        rfl
      · refine ⟨c :: cs, ?_, ?_, Or.inl ?_⟩
        · rw [baseOf, if_neg hm, if_neg hc, List.nil_append]
        · simp only [List.mem_cons, not_or]
          exact ⟨fun he => hc he.symm, hm⟩
        · rw [baseOf, if_neg hm, if_neg hc]

/-- C7, counterexample: the code classifies and rewrites the trimmed
line, so a relative reference with a leading space becomes
`base ++ trimmed`, not `base ++ line` as the claim prescribes. -/
theorem rewrite_trim_cex :
    rewriteText (strL ("http://cdn/path/master.m3u8")) (strL (" seg1.ts")) =
      strL ("http://cdn/path/seg1.ts") ∧
    specRewriteText (strL ("http://cdn/path/master.m3u8")) (strL (" seg1.ts")) =
      strL ("http://cdn/path/ seg1.ts") ∧
    strL ("http://cdn/path/seg1.ts") ≠ strL ("http://cdn/path/ seg1.ts") := by decide

/-- C7 (amended): the rewrite works on the trimmed content of each line —
lines whose trimmed form is empty or starts with `#` pass through
verbatim, lines whose trimmed form is already absolute pass through
verbatim, and every other line becomes `base` concatenated with the
trimmed line; `base` is the manifest URI truncated after its final slash;
the spec's example rewrite holds verbatim. -/
theorem rewrite_line_amended :
    rewriteText (strL ("http://cdn/path/master.m3u8"))
        (strL ("seg1.ts\n#EXTINF:1\nhttp://x/seg2.ts\n")) =
      strL ("http://cdn/path/seg1.ts\n#EXTINF:1\nhttp://x/seg2.ts\n") ∧
    (∀ uri, ∃ r, uri = baseOf uri ++ r ∧ '/' ∉ r ∧
      (baseOf uri = [] ∨ ∃ b, baseOf uri = b ++ ['/'])) ∧
    (∀ base l, trimList l = [] ∨ startsWithL (trimList l) (strL ("#")) = true →
      rewriteLine base l = l) ∧
    (∀ base l, startsWithL (trimList l) (strL ("http://")) = true ∨
        startsWithL (trimList l) (strL ("https://")) = true →
      rewriteLine base l = l) ∧
    (∀ base l, trimList l ≠ [] → startsWithL (trimList l) (strL ("#")) = false →
      startsWithL (trimList l) (strL ("http://")) = false →
      startsWithL (trimList l) (strL ("https://")) = false →
      rewriteLine base l = base ++ trimList l) := by
  refine ⟨by decide, baseOf_spec, fun base l h => ?_, fun base l h => ?_,
    fun base l h1 h2 h3 h4 => ?_⟩
  · rw [rewriteLine_eq]
    rcases h with he | hh
    · simp [he]
    · simp [hh]
  · rcases h with hh | hh
    · rw [rewriteLine_eq, if_neg (by simp [(http_head hh).1, (http_head hh).2]),
        if_pos (by simp [hh])]
    · rw [rewriteLine_eq, if_neg (by simp [(https_head hh).1, (https_head hh).2]),
        if_pos (by simp [hh])]
  · rw [rewriteLine_eq, if_neg (by simp [h1, h2]), if_neg (by simp [h3, h4])]

/-- C7 witness: the amended per-line rule applied to a concrete relative
reference. -/
theorem rewrite_line_amended_w :
    rewriteLine (strL ("http://b/")) (strL ("seg.ts")) =
      strL ("http://b/") ++ trimList (strL ("seg.ts")) :=
  rewrite_line_amended.2.2.2.2 (strL ("http://b/")) (strL ("seg.ts"))
    (by decide) (by decide) (by decide) (by decide)

/-! ### Claim C8 -/

/-- Characters of `trim` output come from the input. -/
theorem mem_trimList {c : Char} {l : List Char} (h : c ∈ trimList l) : c ∈ l := by
  unfold trimList at h
  rw [List.mem_reverse] at h
  have h2 := (List.dropWhile_sublist _).subset h
  rw [List.mem_reverse] at h2
  exact (List.dropWhile_sublist _).subset h2

/-- Characters of `baseOf` output come from the input. -/
theorem mem_baseOf {c : Char} : ∀ {l : List Char}, c ∈ baseOf l → c ∈ l := by
  intro l
  induction l with
  | nil => intro h; simp [baseOf] at h
  | cons d ds ih =>
    intro h
    rw [baseOf] at h
    split at h
    · rcases List.mem_cons.1 h with rfl | h2
      · exact List.mem_cons_self _ _
      · exact List.mem_cons_of_mem _ (ih h2)
    · split at h
      · rename_i hd
        rcases List.mem_cons.1 h with rfl | h2
        · exact hd ▸ List.mem_cons_self _ _
        · simp at h2
      · simp at h

/-- Pieces produced by `splitOnCh` never contain the separator. -/
theorem splitOnCh_not_sep (sep : Char) : ∀ (l : List Char), ∀ x ∈ splitOnCh sep l, sep ∉ x := by
  intro l
  induction l with
  | nil =>
    intro x hx
    simp only [splitOnCh, List.mem_singleton] at hx
    subst hx
    simp
  | cons c cs ih =>
    intro x hx
    rw [splitOnCh] at hx
    rcases hsp : splitOnCh sep cs with _ | ⟨a, as⟩
    · exact absurd hsp (splitOnCh_ne_nil sep cs)
    · rw [hsp] at hx
      have hx' : x ∈ if c = sep then [] :: a :: as else (c :: a) :: as := hx
      by_cases hc : c = sep
      · rw [if_pos hc] at hx' 
        rcases List.mem_cons.1 hx' with rfl | hx2
        · simp
        · exact ih x (hsp ▸ hx2)
      · rw [if_neg hc] at hx'
        rcases List.mem_cons.1 hx' with rfl | hx2
        · intro hm
          rcases List.mem_cons.1 hm with he | hm2
          · exact hc he.symm
          · exact ih a (hsp ▸ List.mem_cons_self a as) hm2
        · exact ih x (hsp ▸ List.mem_cons_of_mem a hx2)

/-- `splitOnCh` is a left inverse of `joinCh` on nonempty families of
separator-free pieces. -/
theorem splitOnCh_joinCh (sep : Char) : ∀ (ls : List (List Char)), ls ≠ [] →
    (∀ x ∈ ls, sep ∉ x) → splitOnCh sep (joinCh sep ls) = ls := by
  intro ls
  induction ls with
  | nil => intro h; exact absurd rfl h
  | cons l ls ih =>
    intro _ hall
    cases ls with
    | nil => exact splitOnCh_not_mem (hall l (List.mem_cons_self l []))
    | cons l₂ ls₂ =>
      rw [joinCh, splitOnCh_append (hall l (List.mem_cons_self _ _)),
        ih (by simp) fun x hx => hall x (List.mem_cons_of_mem _ hx)]

/-- A predicate fails on the head of any nonempty `dropWhile` result. -/
theorem dropWhile_head_not (p : Char → Bool) :
    ∀ (l : List Char) (a : Char) (as : List Char), l.dropWhile p = a :: as → p a = false := by
  intro l
  induction l with
  | nil => intro a as h; simp at h
  | cons c cs ih =>
    intro a as h
    rw [List.dropWhile_cons] at h
    split at h
    · exact ih a as h
    · rename_i hc
      cases h
      simpa using hc

/-- A nonempty `trim` output ends in a non-whitespace character. -/
theorem trimList_reverse_head (l : List Char) (h : trimList l ≠ []) :
    ∃ a as, (trimList l).reverse = a :: as ∧ isWs a = false := by
  unfold trimList at h ⊢
  rw [List.reverse_reverse]
  cases hd : ((l.dropWhile isWs).reverse).dropWhile isWs with
  | nil => rw [hd] at h; simp at h
  | cons a as => exact ⟨a, as, rfl, dropWhile_head_not isWs _ a as hd⟩

/-- Prepending an `h`-headed base to a trimmed nonempty string leaves the
result trim-invariant. -/
theorem trimList_keep (b' t : List Char)
    (hrev : ∃ a as, t.reverse = a :: as ∧ isWs a = false) :
    trimList (('h' :: b') ++ t) = ('h' :: b') ++ t := by
  obtain ⟨a, as, hrv, ha⟩ := hrev
  have h1 : (('h' :: b') ++ t).dropWhile isWs = ('h' :: b') ++ t := by
    rw [List.cons_append, List.dropWhile_cons_of_neg (by decide)]
  have h2 : (t.reverse ++ ('h' :: b').reverse).dropWhile isWs =
      t.reverse ++ ('h' :: b').reverse := by
    rw [hrv, List.cons_append, List.dropWhile_cons_of_neg (by simp [ha])]
  unfold trimList
  rw [h1, List.reverse_append, h2, ← List.reverse_append, List.reverse_reverse]

/-- `startsWithL` is preserved by appending on the right. -/
theorem startsWithL_append {base p x : List Char} (h : startsWithL base p = true) :
    startsWithL (base ++ x) p = true := by
  obtain ⟨r, rfl⟩ := (startsWithL_iff _ _).1 h
  exact (startsWithL_iff _ _).2 ⟨r ++ x, by simp⟩

/-- An absolute base begins with the character `h`. -/
theorem base_head {base : List Char}
    (hb : startsWithL base (strL ("http://")) = true ∨
      startsWithL base (strL ("https://")) = true) :
    ∃ b', base = 'h' :: b' := by
  rcases hb with h | h <;>
    (obtain ⟨r, hr⟩ := (startsWithL_iff _ _).1 h; exact ⟨_, hr⟩)

/-- The per-line rewrite is idempotent once the base is absolute. -/
theorem rewriteLine_idem (base l : List Char)
    (hb : startsWithL base (strL ("http://")) = true ∨
      startsWithL base (strL ("https://")) = true) :
    rewriteLine base (rewriteLine base l) = rewriteLine base l := by
  obtain ⟨b', hb'⟩ := base_head hb
  rw [rewriteLine_eq base l]
  split
  · rename_i hc
    rw [rewriteLine_eq, if_pos hc]
  · split
    · rename_i hc1 hc2
      rw [rewriteLine_eq, if_neg hc1, if_pos hc2]
    · rename_i hc1 hc2
      have htne : trimList l ≠ [] := by
        intro he
        exact hc1 (by simp [he])
      have hkeep : trimList (base ++ trimList l) = base ++ trimList l := by
        rw [hb']
        exact trimList_keep b' (trimList l) (trimList_reverse_head l htne)
      have hne2 : ¬ (base ++ trimList l = []) := by rw [hb']; simp
      have hhash : startsWithL (base ++ trimList l) (strL ("#")) = false := by
        rw [hb']
        rfl
      have habs : (startsWithL (base ++ trimList l) (strL ("http://")) ||
          startsWithL (base ++ trimList l) (strL ("https://"))) = true := by
        rcases hb with h | h
        · simp [startsWithL_append h]
        · simp [startsWithL_append h]
      rw [rewriteLine_eq base (base ++ trimList l), hkeep,
        if_neg (by simp [hne2, hhash]), if_pos habs]

/-- The per-line rewrite introduces no newline when base and line have
none. -/
theorem rewriteLine_no_sep {base l : List Char} (hb : '\n' ∉ base) (hl : '\n' ∉ l) :
    '\n' ∉ rewriteLine base l := by
  rw [rewriteLine_eq]
  split
  · exact hl
  · split
    · exact hl
    · intro hm
      rcases List.mem_append.1 hm with h | h
      · exact hb h
      · exact hl (mem_trimList h)

/-- `baseOf` keeps the `http://` scheme marker of an absolute locator. -/
theorem baseOf_startsWith_http {uri : List Char}
    (h : startsWithL uri (strL ("http://")) = true) :
    startsWithL (baseOf uri) (strL ("http://")) = true := by
  obtain ⟨r, rfl⟩ := (startsWithL_iff _ _).1 h
  rw [strL_http]
  by_cases hm : '/' ∈ r <;>
    simp +decide [baseOf, startsWithL, hm]

/-- `baseOf` keeps the `https://` scheme marker of an absolute locator. -/
theorem baseOf_startsWith_https {uri : List Char}
    (h : startsWithL uri (strL ("https://")) = true) :
    startsWithL (baseOf uri) (strL ("https://")) = true := by
  obtain ⟨r, rfl⟩ := (startsWithL_iff _ _).1 h
  rw [strL_https]
  by_cases hm : '/' ∈ r <;>
    simp +decide [baseOf, startsWithL, hm]

/-- C8: the manifest rewrite is idempotent for every absolute `http://`
or `https://` manifest URI (a URI contains no newline character):
rewriting an already-rewritten manifest returns it unchanged, because
every rewritten line is absolute and every passed-through line passes
through again. -/
theorem rewrite_idempotent (uri text : List Char)
    (hu : startsWithL uri (strL ("http://")) = true ∨
      startsWithL uri (strL ("https://")) = true)
    (hn : '\n' ∉ uri) :
    rewriteText uri (rewriteText uri text) = rewriteText uri text := by
  have hbase : startsWithL (baseOf uri) (strL ("http://")) = true ∨
      startsWithL (baseOf uri) (strL ("https://")) = true := by
    rcases hu with h | h
    · exact Or.inl (baseOf_startsWith_http h)
    · exact Or.inr (baseOf_startsWith_https h)
  have hbn : '\n' ∉ baseOf uri := fun hm => hn (mem_baseOf hm)
  have hMnl : ∀ m ∈ (splitOnCh '\n' text).map (rewriteLine (baseOf uri)), '\n' ∉ m := by
    intro m hm
    obtain ⟨l, hl, rfl⟩ := List.mem_map.1 hm
    exact rewriteLine_no_sep hbn (splitOnCh_not_sep '\n' text l hl)
  have hMne : (splitOnCh '\n' text).map (rewriteLine (baseOf uri)) ≠ [] := by
    intro h
    exact splitOnCh_ne_nil '\n' text (List.map_eq_nil_iff.1 h)
  show joinCh '\n'
      ((splitOnCh '\n'
        (joinCh '\n' ((splitOnCh '\n' text).map (rewriteLine (baseOf uri))))).map
        (rewriteLine (baseOf uri))) =
    joinCh '\n' ((splitOnCh '\n' text).map (rewriteLine (baseOf uri)))
  rw [splitOnCh_joinCh '\n' _ hMne hMnl, List.map_map]
  congr 1
  apply List.map_congr_left
  intro l _
  exact rewriteLine_idem (baseOf uri) l hbase

/-- C8 witness: double rewrite of the spec's example manifest with its
example URI. -/
theorem rewrite_idempotent_w :
    rewriteText (strL ("http://cdn/path/master.m3u8"))
        (rewriteText (strL ("http://cdn/path/master.m3u8"))
          (strL ("seg1.ts\n#EXTINF:1\nhttp://x/seg2.ts\n"))) =
      rewriteText (strL ("http://cdn/path/master.m3u8"))
        (strL ("seg1.ts\n#EXTINF:1\nhttp://x/seg2.ts\n")) :=
  rewrite_idempotent (strL ("http://cdn/path/master.m3u8"))
    (strL ("seg1.ts\n#EXTINF:1\nhttp://x/seg2.ts\n")) (Or.inl (by decide)) (by decide)

/-! ### Claim C9 -/

/-- C9: `getPlaybackToken` returns a token only when the response is 2xx
and the token object carries both a non-empty `value` and a non-empty
`signature`, and the returned token is assembled from exactly those two
fields; a non-2xx response, a missing token object, or a missing field
always fails. -/
theorem playback_token_contract (r : GqlResponse) :
    (∀ t, getPlaybackToken r = .token t →
      r.ok = true ∧ ∃ td, r.tokenData = some td ∧
        td.value = some t.value ∧ t.value ≠ [] ∧
        td.signature = some t.signature ∧ t.signature ≠ []) ∧
    (r.ok = false → getPlaybackToken r = .failed) ∧
    (r.tokenData = none → getPlaybackToken r = .failed) ∧
    (∀ td, r.tokenData = some td → td.value = none ∨ td.signature = none →
      getPlaybackToken r = .failed) := by
  obtain ⟨ok, td⟩ := r
  refine ⟨fun t ht => ?_, fun h => ?_, fun h => ?_, fun td' h hmiss => ?_⟩
  · cases ok with
    | false => simp [getPlaybackToken] at ht
    | true =>
      cases td with
      | none => simp [getPlaybackToken] at ht
      | some d =>
        obtain ⟨v, s⟩ := d
        cases v with
        | none => simp [getPlaybackToken] at ht
        | some v' =>
          cases s with
          | none => simp [getPlaybackToken] at ht
          | some s' =>
            by_cases hv : v' = []
            · simp [getPlaybackToken, hv] at ht
            · by_cases hs : s' = []
              · simp [getPlaybackToken, hv, hs] at ht
              · simp only [getPlaybackToken] at ht
                rw [if_neg (by simp), if_neg (by simp [hv, hs])] at ht
                cases ht
                exact ⟨rfl, ⟨some v', some s'⟩, rfl, rfl, hv, rfl, hs⟩
  · subst h
    simp [getPlaybackToken]
  · subst h
    cases ok <;> simp [getPlaybackToken]
  · subst h
    cases ok with
    | false => simp [getPlaybackToken]
    | true =>
      obtain ⟨v, s⟩ := td'
      rcases hmiss with hv | hs
      · simp only at hv
        subst hv
        simp [getPlaybackToken]
      · simp only at hs
        subst hs
        cases v <;> simp [getPlaybackToken]

/-- C9 witness: the contract applied to a well-formed response and to a
non-2xx response. -/
theorem playback_token_contract_w :
    (getPlaybackToken ⟨true, some ⟨some (strL ("v")), some (strL ("s"))⟩⟩ =
        .token ⟨strL ("v"), strL ("s")⟩ ∧
      (⟨true, some ⟨some (strL ("v")), some (strL ("s"))⟩⟩ : GqlResponse).ok = true) ∧
    getPlaybackToken ⟨false, none⟩ = .failed :=
  ⟨⟨by decide,
    ((playback_token_contract ⟨true, some ⟨some (strL ("v")), some (strL ("s"))⟩⟩).1
      ⟨strL ("v"), strL ("s")⟩ (by decide)).1⟩,
    (playback_token_contract ⟨false, none⟩).2.1 rfl⟩

end RatUnsealed
